import Mathlib

/-!
Verification of the autocomplete widget (`src/components/AutoComplete/index.tsx`,
`src/hooks/useDebounce.ts`, `src/components/Dropdown`).

Strings are embedded as lists of characters (`Str`), and the JavaScript string
primitives used by the widget (`toLowerCase`, `indexOf`, `includes`,
`substring`) are given executable definitions with the same semantics on this
representation.  The widget's React state is a record, each event handler and
effect is a state transformer, and a run of the widget is a fold of events over
the initial (mounted) state.
-/

namespace AutoCompleteSpec

/-- Strings, embedded as lists of characters. -/
abbrev Str := List Char

/-- JavaScript `s.toLowerCase()`: character-wise lower-casing. -/
def lower (s : Str) : Str := s.map Char.toLower

/-- Whether `need` starts the list `hay` (the primitive under `indexOf`). -/
def isPfx : Str → Str → Bool
  | [], _ => true
  | _ :: _, [] => false
  | a :: as, b :: bs => a == b && isPfx as bs

/-- JavaScript `hay.indexOf(need)`: index of the first occurrence of `need`
in `hay`, or `none` for `-1`.  As in JavaScript, the empty needle is found
at index 0. -/
def firstOccur (need : Str) : Str → Option Nat
  | [] => if isPfx need [] then some 0 else none
  | c :: t =>
      if isPfx need (c :: t) then some 0
      else (firstOccur need t).map (· + 1)

/-- JavaScript `hay.includes(need)`: literal substring test, no pattern
compilation. -/
def jsIncludes (hay need : Str) : Bool := (firstOccur need hay).isSome

/-- JavaScript `s.substring(a, b)`: clamps both arguments to the string length
and swaps them when out of order. -/
def jsSubstring (s : Str) (a b : Nat) : Str :=
  let a' := min a s.length
  let b' := min b s.length
  (s.drop (min a' b')).take (max a' b' - min a' b')

/-- The filter inside `debounceFilter` (index.tsx lines 39-41):
`data.filter(item => item.toLowerCase().includes(value.toLowerCase()))`. -/
def filterPass (data : List Str) (value : Str) : List Str :=
  data.filter (fun item => jsIncludes (lower item) (lower value))

/-- The three display pieces produced by `highlightMatch`: the text before the
match, the emphasized span, and the text after it. -/
structure Highlight where
  pre : Str
  mid : Str
  suf : Str
deriving DecidableEq

/-- `highlightMatch` (index.tsx lines 54-68).  The not-found branch returns the
raw item, i.e. the whole item with no emphasized span, embedded as
`⟨item, [], []⟩`; the found branch returns the three `substring` pieces around
the first case-insensitive occurrence of the input value. -/
def highlightMatch (inputValue item : Str) : Highlight :=
  match firstOccur (lower inputValue) (lower item) with
  | none => ⟨item, [], []⟩
  | some i =>
      ⟨jsSubstring item 0 i,
       jsSubstring item i (i + inputValue.length),
       jsSubstring item (i + inputValue.length) item.length⟩

/-- Spec-side notion of literal containment: `need` occurs in `hay` exactly
when `hay` splits as `l ++ need ++ r`. -/
def isSubstringOf (need hay : Str) : Prop := ∃ l r, hay = l ++ need ++ r

theorem isPfx_iff : ∀ need hay : Str, isPfx need hay = true ↔ ∃ t, hay = need ++ t
  | [], hay => by simp [isPfx]
  | a :: as, [] => by simp [isPfx]
  | a :: as, b :: bs => by
      simp only [isPfx, Bool.and_eq_true, beq_iff_eq, isPfx_iff as bs,
        List.cons_append, List.cons.injEq]
      constructor
      · rintro ⟨rfl, t, rfl⟩
        exact ⟨t, rfl, rfl⟩
      · rintro ⟨t, rfl, rfl⟩
        exact ⟨rfl, t, rfl⟩

theorem firstOccur_some_isPfx {need : Str} :
    ∀ {hay : Str} {i : Nat}, firstOccur need hay = some i →
      isPfx need (hay.drop i) = true := by
  intro hay
  induction hay with
  | nil =>
      intro i h
      simp only [firstOccur] at h
      split at h
      · cases h
        exact ‹isPfx need [] = true›
      · cases h
  | cons c t ih =>
      intro i h
      simp only [firstOccur] at h
      split at h
      · cases h
        exact ‹isPfx need (c :: t) = true›
      · cases hrec : firstOccur need t with
        | none => rw [hrec] at h; cases h
        | some j =>
            rw [hrec] at h
            simp only [Option.map_some'] at h
            cases h
            exact ih hrec

theorem firstOccur_none_isPfx {need : Str} :
    ∀ {hay : Str}, firstOccur need hay = none →
      ∀ i, isPfx need (hay.drop i) = false := by
  intro hay
  induction hay with
  | nil =>
      intro h i
      simp only [firstOccur] at h
      split at h
      · cases h
      · rw [List.drop_nil]
        exact Bool.eq_false_iff.mpr ‹¬isPfx need [] = true›
  | cons c t ih =>
      intro h i
      simp only [firstOccur] at h
      split at h
      · cases h
      · cases hrec : firstOccur need t with
        | some j => rw [hrec] at h; cases h
        | none =>
            cases i with
            | zero =>
                exact Bool.eq_false_iff.mpr ‹¬isPfx need (c :: t) = true›
            | succ i' =>
                exact ih hrec i'

theorem firstOccur_min {need : Str} :
    ∀ {hay : Str} {i : Nat}, firstOccur need hay = some i →
      ∀ j, isPfx need (hay.drop j) = true → i ≤ j := by
  intro hay
  induction hay with
  | nil =>
      intro i h j _
      simp only [firstOccur] at h
      split at h
      · cases h; exact Nat.zero_le j
      · cases h
  | cons c t ih =>
      intro i h j hj
      simp only [firstOccur] at h
      split at h
      · cases h; exact Nat.zero_le j
      · cases hrec : firstOccur need t with
        | none => rw [hrec] at h; cases h
        | some i' =>
            rw [hrec] at h
            simp only [Option.map_some'] at h
            cases h
            cases j with
            | zero =>
                exact absurd hj ‹¬isPfx need (c :: t) = true›
            | succ j' =>
                have := ih hrec j' hj
                omega

theorem firstOccur_le_length {need : Str} :
    ∀ {hay : Str} {i : Nat}, firstOccur need hay = some i → i ≤ hay.length := by
  intro hay
  induction hay with
  | nil =>
      intro i h
      simp only [firstOccur] at h
      split at h
      · cases h; exact Nat.le_refl 0
      · cases h
  | cons c t ih =>
      intro i h
      simp only [firstOccur] at h
      split at h
      · cases h; exact Nat.zero_le _
      · cases hrec : firstOccur need t with
        | none => rw [hrec] at h; cases h
        | some j =>
            rw [hrec] at h
            simp only [Option.map_some'] at h
            cases h
            have := ih hrec
            simp only [List.length_cons]
            omega

theorem firstOccur_isSome_iff (need hay : Str) :
    (firstOccur need hay).isSome = true ↔ isSubstringOf need hay := by
  constructor
  · intro h
    cases hfo : firstOccur need hay with
    | none => rw [hfo] at h; cases h
    | some i =>
        have hp := firstOccur_some_isPfx hfo
        obtain ⟨t, ht⟩ := (isPfx_iff need (hay.drop i)).mp hp
        refine ⟨hay.take i, t, ?_⟩
        conv_lhs => rw [← List.take_append_drop i hay, ht]
        rw [List.append_assoc]
  · rintro ⟨l, r, rfl⟩
    cases hfo : firstOccur need ((l ++ need) ++ r) with
    | some i => simp
    | none =>
        exfalso
        have := firstOccur_none_isPfx hfo l.length
        rw [List.append_assoc, List.drop_left] at this
        rw [(isPfx_iff need (need ++ r)).mpr ⟨r, rfl⟩] at this
        cases this

theorem firstOccur_add_length_le {need hay : Str} {i : Nat}
    (h : firstOccur need hay = some i) : i + need.length ≤ hay.length := by
  have hp := firstOccur_some_isPfx h
  obtain ⟨t, ht⟩ := (isPfx_iff need (hay.drop i)).mp hp
  have hlen : hay.length - i = need.length + t.length := by
    have := congrArg List.length ht
    simpa [List.length_drop, List.length_append] using this
  have := firstOccur_le_length h
  omega

theorem lower_length (s : Str) : (lower s).length = s.length := List.length_map s Char.toLower

theorem lower_eq_nil_iff (s : Str) : lower s = [] ↔ s = [] := by
  simp [lower]

theorem jsSubstring_eq_of_le {s : Str} {a b : Nat} (hab : a ≤ b) (hb : b ≤ s.length) :
    jsSubstring s a b = (s.drop a).take (b - a) := by
  have ha : a ≤ s.length := le_trans hab hb
  simp only [jsSubstring, Nat.min_eq_left ha, Nat.min_eq_left hb,
    Nat.min_eq_left hab, Nat.max_eq_right hab]

theorem highlightMatch_eq_of_some {q item : Str} {i : Nat}
    (h : firstOccur (lower q) (lower item) = some i) :
    highlightMatch q item =
      ⟨item.take i, (item.drop i).take q.length, item.drop (i + q.length)⟩ := by
  have hb : i + q.length ≤ item.length := by
    have := firstOccur_add_length_le h
    rwa [lower_length, lower_length] at this
  have hi : i ≤ item.length := le_trans (Nat.le_add_right i q.length) hb
  simp only [highlightMatch, h]
  have h1 : jsSubstring item 0 i = item.take i := by
    rw [jsSubstring_eq_of_le (Nat.zero_le i) hi]
    simp
  have h2 : jsSubstring item i (i + q.length) = (item.drop i).take q.length := by
    rw [jsSubstring_eq_of_le (Nat.le_add_right i q.length) hb]
    congr 1
    omega
  have h3 : jsSubstring item (i + q.length) item.length = item.drop (i + q.length) := by
    rw [jsSubstring_eq_of_le hb (Nat.le_refl _)]
    have hlen : item.length - (i + q.length) = (item.drop (i + q.length)).length := by
      simp [List.length_drop]
    rw [hlen, List.take_length]
  rw [h1, h2, h3]

/-! ## The debouncer (`src/hooks/useDebounce.ts`)

`useDebounce(callback, delay)` keeps a single mutable timer slot
(`timeoutRef`).  Every call of the returned trigger does
`clearTimeout(timeoutRef.current)` and then
`timeoutRef.current = setTimeout(() => callback(...args), delay)`.

We model a whole interaction: a list of trigger calls `(t, a)` at strictly
increasing wall-clock times with arguments `a`.  `processCalls` walks the call
list carrying the pending timer slot and emits the `(fireTime, args)`
invocations of the wrapped callback that actually happen: a pending timer fires
iff its fire time precedes the next trigger call (otherwise that call's
`clearTimeout` cancels it), and the final pending timer always fires. -/

def processCalls (delay : Nat) : Option (Nat × α) → List (Nat × α) → List (Nat × α)
  | pending, [] =>
      match pending with
      | none => []
      | some p => [p]
  | pending, (t, a) :: rest =>
      (match pending with
       | some (ft, fa) => if ft ≤ t then [(ft, fa)] else []
       | none => []) ++ processCalls delay (some (t + delay, a)) rest

/-- The callback invocations produced by a sequence of trigger calls on a
freshly created debounced wrapper. -/
def debounceRun (delay : Nat) (calls : List (Nat × α)) : List (Nat × α) :=
  processCalls delay none calls

theorem processCalls_cons (delay t : Nat) (a : α) (rest : List (Nat × α)) :
    processCalls delay none ((t, a) :: rest) =
      processCalls delay (some (t + delay, a)) rest := by
  simp [processCalls]

theorem debounceRun_coalesce (delay : Nat) :
    ∀ (cs : List (Nat × α)) (t : Nat) (a : α),
      List.Chain' (fun p q => q.1 < p.1 + delay) ((t, a) :: cs) →
      debounceRun delay ((t, a) :: cs) =
        [((cs.getLastD (t, a)).1 + delay, (cs.getLastD (t, a)).2)]
  | [], t, a, _ => by
      simp [debounceRun, processCalls]
  | (t', a') :: cs', t, a, h => by
      have hlt : t' < t + delay := (List.chain'_cons.mp h).1
      have htail : List.Chain' (fun p q => q.1 < p.1 + delay) ((t', a') :: cs') :=
        (List.chain'_cons.mp h).2
      have step : debounceRun delay ((t, a) :: (t', a') :: cs') =
          debounceRun delay ((t', a') :: cs') := by
        rw [debounceRun, processCalls_cons, debounceRun, processCalls_cons]
        show (if t + delay ≤ t' then [(t + delay, a)] else []) ++
            processCalls delay (some (t' + delay, a')) cs' = _
        rw [if_neg (by omega)]
        rfl
      rw [step, debounceRun_coalesce delay cs' t' a' htail, List.getLastD_cons]

/-! ## The AutoComplete controller (`src/components/AutoComplete/index.tsx`)

React state of one mounted widget: `inputValue`, `filteredData`, `loading`,
`showDropdown`, plus the debouncer's single pending-timer slot, which records
the input value captured by the scheduled `debounceFilter` callback (timing is
irrelevant to the controller invariants: only the single-slot cancel-and-replace
discipline matters, so the slot stores just the captured value). -/

structure CState where
  inputValue : Str
  filteredData : List Str
  loading : Bool
  showDropdown : Bool
  pending : Option Str
deriving DecidableEq

/-- `handleChange` (index.tsx lines 25-28): `setInputValue(value); setShowDropdown(true)`. -/
def handleChange (v : Str) (s : CState) : CState :=
  { s with inputValue := v, showDropdown := true }

/-- `handleClick` (index.tsx lines 30-33), the selection handler passed to the
dropdown rows: `setInputValue(value); setShowDropdown(false)`. -/
def handleClick (v : Str) (s : CState) : CState :=
  { s with inputValue := v, showDropdown := false }

/-- `handleOutsideClick` (index.tsx lines 49-52):
`setShowDropdown(false); setFilteredData([])`. -/
def handleOutsideClick (s : CState) : CState :=
  { s with showDropdown := false, filteredData := [] }

/-- The effect pass after a commit (index.tsx lines 72-82).  Both effects
depend on `inputValue` (and `debounceFilter`, itself memoized on `inputValue`),
so they re-run exactly when `inputValue` changed: the first sets
`loading = true` and calls `debounceFilter(inputValue)` — which clears the
pending timer and schedules a new one capturing the current value — and the
second clears `filteredData` when the new value is empty. -/
def runEffects (prevInput : Str) (s : CState) : CState :=
  if s.inputValue = prevInput then s
  else
    let s1 := { s with loading := true, pending := some s.inputValue }
    if s1.inputValue = [] then { s1 with filteredData := [] } else s1

/-- The debounced callback body (index.tsx lines 37-45), run when the pending
timer fires with its captured value `v`:
`if (value) { setFilteredData(data.filter(...)) } setLoading(false)`. -/
def fireDebounced (data : List Str) (v : Str) (s : CState) : CState :=
  let s1 := if v = [] then s else { s with filteredData := filterPass data v }
  { s1 with loading := false }

/-- Modelled from the spec: the repository's `useOutsideClick` hook
(`src/hooks/useOutsideClick`) is not among the provided sources.  Per spec
§4.2 it watches a region and invokes its callback exactly when the click
target lies outside the watched DOM subtree (here, the dropdown list under
`dropdownRef`). -/
def outsideClickFires (targetInsideRegion : Bool) : Bool := !targetInsideRegion

/-- External stimuli of one mounted widget: a keystroke committing a new input
value, a document click (with whether its target is inside the dropdown region
and, when it landed on a rendered result row, that row's item), and the firing
of the pending debounce timer. -/
inductive Event where
  | keystroke (v : Str)
  | click (insideDropdown : Bool) (item : Option Str)
  | timerFire

/-- One event of the widget.  A keystroke runs `handleChange` and then the
effect pass.  A click first runs the row's React `onClick` (`handleClick`,
Dropdown component) when it landed on a rendered row, then the spec-modelled
`useOutsideClick` listener, and finally the unconditional document-level
listener installed by the mount effect (index.tsx lines 84-89), which calls
`handleOutsideClick` for *every* document click.  A timer firing runs the
debounced filter body with the captured value and empties the timer slot. -/
def stepE (data : List Str) (s : CState) : Event → CState
  | .keystroke v => runEffects s.inputValue (handleChange v s)
  | .click inside item =>
      let s1 :=
        match item with
        | some v =>
            if s.showDropdown && s.filteredData.contains v then
              runEffects s.inputValue (handleClick v s)
            else s
        | none => s
      let s2 := if outsideClickFires inside then handleOutsideClick s1 else s1
      handleOutsideClick s2
  | .timerFire =>
      match s.pending with
      | none => s
      | some v => fireDebounced data v { s with pending := none }

/-- The state right after mounting: the first render has empty input, empty
results, hidden dropdown, and the mount effect pass has already run — setting
`loading = true` and scheduling `debounceFilter("")` (index.tsx lines 72-75). -/
def initState : CState :=
  { inputValue := [], filteredData := [], loading := true,
    showDropdown := false, pending := some [] }

/-- The widget state after a sequence of events from mount. -/
def run (data : List Str) (es : List Event) : CState :=
  es.foldl (stepE data) initState

/-- The render of the dropdown area (Dropdown component): the no-match message
when the passed list is empty, otherwise one row per item. -/
inductive DropdownRender where
  | noMatchMsg
  | itemRows (items : List Str)
deriving DecidableEq

def dropdownContent (fd : List Str) : DropdownRender :=
  if fd.isEmpty then .noMatchMsg else .itemRows fd

/-- What the dropdown region renders (index.tsx lines 101-107):
`showDropdown && <Dropdown filteredData={filteredData} ... />`; `none` means
the region is not mounted at all. -/
def renderedDropdown (s : CState) : Option DropdownRender :=
  if s.showDropdown then some (dropdownContent s.filteredData) else none

/-- The controller invariants: (1) when `loading` is false no debounce
computation is outstanding; (2) the pending timer, when present, always
captured the *current* input value — never a superseded one; (3) when the
input is empty the results are empty. -/
abbrev Inv (s : CState) : Prop :=
  (s.loading = false → s.pending = none) ∧
  (∀ v, s.pending = some v → v = s.inputValue) ∧
  (s.inputValue = [] → s.filteredData = [])

theorem inv_initState : Inv initState := by
  refine ⟨?_, ?_, ?_⟩ <;> simp [initState, Inv]

theorem inv_runEffects_commit (s : CState) (hs : Inv s) (v : Str) (b : Bool) :
    Inv (runEffects s.inputValue { s with inputValue := v, showDropdown := b }) := by
  obtain ⟨h1, h2, h3⟩ := hs
  unfold runEffects
  dsimp only
  by_cases heq : v = s.inputValue
  · rw [if_pos heq]
    refine ⟨h1, ?_, ?_⟩
    · intro w hw
      rw [h2 w hw]
      exact heq.symm
    · intro he
      exact h3 (heq ▸ he)
  · rw [if_neg heq]
    by_cases hv : v = []
    · rw [if_pos hv]
      exact ⟨fun h => Bool.noConfusion h, fun w hw => (Option.some.inj hw).symm, fun _ => rfl⟩
    · rw [if_neg hv]
      exact ⟨fun h => Bool.noConfusion h, fun w hw => (Option.some.inj hw).symm,
        fun he => absurd he hv⟩

theorem inv_handleOutsideClick (s : CState)
    (h1 : s.loading = false → s.pending = none)
    (h2 : ∀ v, s.pending = some v → v = s.inputValue) :
    Inv (handleOutsideClick s) :=
  ⟨h1, h2, fun _ => rfl⟩

theorem inv_click_aux (inside : Bool) (s1 : CState)
    (h1 : s1.loading = false → s1.pending = none)
    (h2 : ∀ w, s1.pending = some w → w = s1.inputValue) :
    Inv (handleOutsideClick
      (if outsideClickFires inside then handleOutsideClick s1 else s1)) := by
  split
  · exact inv_handleOutsideClick (handleOutsideClick s1) h1 h2
  · exact inv_handleOutsideClick s1 h1 h2

theorem inv_step (data : List Str) (s : CState) (hs : Inv s) (e : Event) :
    Inv (stepE data s e) := by
  obtain ⟨h1, h2, h3⟩ := hs
  cases e with
  | keystroke v => exact inv_runEffects_commit s ⟨h1, h2, h3⟩ v true
  | click inside item =>
      simp only [stepE]
      cases item with
      | none => exact inv_click_aux inside s h1 h2
      | some v =>
          by_cases hcond : (s.showDropdown && s.filteredData.contains v) = true
          · simp only [if_pos hcond]
            have hinv := inv_runEffects_commit s ⟨h1, h2, h3⟩ v false
            exact inv_click_aux inside _ hinv.1 hinv.2.1
          · simp only [if_neg hcond]
            exact inv_click_aux inside s h1 h2
  | timerFire =>
      cases hp : s.pending with
      | none =>
          simp only [stepE, hp]
          exact ⟨h1, h2, h3⟩
      | some v =>
          simp only [stepE, hp, fireDebounced]
          split
          · exact ⟨fun _ => rfl, fun w hw => Option.noConfusion hw, fun he => h3 he⟩
          · rename_i hv
            refine ⟨fun _ => rfl, fun w hw => Option.noConfusion hw, fun he => ?_⟩
            exact absurd ((h2 v hp).trans he) hv

theorem inv_run (data : List Str) (es : List Event) : Inv (run data es) := by
  suffices h : ∀ s : CState, Inv s → Inv (es.foldl (stepE data) s) from
    h initState inv_initState
  induction es with
  | nil => exact fun s hs => hs
  | cons e es ih => exact fun s hs => ih (stepE data s e) (inv_step data s hs e)

/-! ## Malformed candidate data (C9)

The `data` prop is typed `string[]`, but at runtime nothing prevents the
caller from passing `undefined`, `null`, or a non-array.  We model the prop as
`Option (List Str)`: `none` stands for any value without a `.filter` method. -/

/-- JavaScript `data.filter(p)` when `data` may not be an array: a `none`
value (`undefined`/`null`/non-array) has no `.filter` method, so the call
raises a TypeError. -/
def dataFilterJs (data : Option (List Str)) (p : Str → Bool) :
    Except String (List Str) :=
  match data with
  | some arr => .ok (arr.filter p)
  | none => .error "TypeError: data.filter is not a function"

/-- The observable outcome of the debounced filter body (index.tsx lines
37-45) with a possibly malformed `data` prop: `.ok none` means the body ran
without writing `filteredData` (empty value), `.ok (some fd)` means it wrote
`fd`, and `.error` means it threw. -/
def debounceFilterBody (data : Option (List Str)) (value : Str) :
    Except String (Option (List Str)) :=
  if value = [] then .ok none
  else
    match dataFilterJs data (fun item => jsIncludes (lower item) (lower value)) with
    | .ok fd => .ok (some fd)
    | .error e => .error e

/-! ## Concrete example values used by witnesses and counterexamples -/

def exA : Str := ['a']

def exAB : Str := ['a', 'b']

def exData : List Str := [exAB]

def exDotData : List Str := [['a', 'b'], ['a', '.', 'b']]

def canadaL : Str := ['C', 'a', 'n', 'a', 'd', 'a']

def anaL : Str := ['a', 'n', 'a']

def xyzL : Str := ['x', 'y', 'z']

theorem firstOccur_nil_need (hay : Str) : firstOccur [] hay = some 0 := by
  cases hay <;> simp [firstOccur, isPfx]

/-! ## The claims -/

/-- Claim C1: for every non-empty query and candidate list, the debounced
filter pass keeps exactly the candidates that case-insensitively contain the
query as a literal substring — membership is characterized by plain list
splitting (`isSubstringOf`), with no pattern compilation anywhere in the
semantics — and the result is a sublist of the candidate list, hence in its
original relative order. -/
theorem filterPass_exact (data : List Str) (q : Str) (_hq : q ≠ []) :
    (∀ x, x ∈ filterPass data q ↔ x ∈ data ∧ isSubstringOf (lower q) (lower x)) ∧
    (filterPass data q).Sublist data := by
  constructor
  · intro x
    rw [filterPass, List.mem_filter]
    constructor
    · rintro ⟨hx, hp⟩
      exact ⟨hx, (firstOccur_isSome_iff (lower q) (lower x)).mp hp⟩
    · rintro ⟨hx, hsub⟩
      exact ⟨hx, (firstOccur_isSome_iff (lower q) (lower x)).mpr hsub⟩
  · exact List.filter_sublist data

theorem filterPass_exact_witness :
    (['a', '.', 'b'] ∈ filterPass exDotData ['.'] ↔
      ['a', '.', 'b'] ∈ exDotData ∧
        isSubstringOf (lower ['.']) (lower ['a', '.', 'b'])) ∧
    (filterPass exDotData ['.']).Sublist exDotData :=
  ⟨(filterPass_exact exDotData ['.'] (by decide)).1 ['a', '.', 'b'],
   (filterPass_exact exDotData ['.'] (by decide)).2⟩

/-- Claim C2: any nonempty burst of trigger calls on the debounced wrapper,
each arriving strictly within the quiet period of the previous one, yields
exactly one invocation of the wrapped action, scheduled one quiet period after
the last call and carrying the last call's argument; every earlier pending
timer was cancelled by `clearTimeout`, none queued. -/
theorem useDebounce_coalesces {α : Type} (delay t : Nat) (a : α)
    (cs : List (Nat × α))
    (h : List.Chain' (fun p q => q.1 < p.1 + delay) ((t, a) :: cs)) :
    debounceRun delay ((t, a) :: cs) =
      [((cs.getLastD (t, a)).1 + delay, (cs.getLastD (t, a)).2)] :=
  debounceRun_coalesce delay cs t a h

theorem useDebounce_coalesces_witness :
    debounceRun 500 [(0, 1), (100, 2), (300, 3)] = [(800, 3)] :=
  (useDebounce_coalesces 500 0 1 [(100, 2), (300, 3)]
    (by
      rw [List.chain'_cons, List.chain'_cons]
      exact ⟨by decide, by decide, List.chain'_singleton _⟩)).trans (by decide)

/-- Claim C3, evaluated at the failing input: with the widget mounted, the
dropdown visible and the results nonempty — reached by typing `a` and letting
the debounce fire — a click whose target lies inside the dropdown still sets
dropdown-visible to false and clears the results, because the mount effect
(index.tsx lines 84-89) registers `handleOutsideClick` for every document
click, defeating the ref-discriminating `useOutsideClick`. -/
theorem insideClick_dismisses_dropdown :
    ((run exData [Event.keystroke exA, Event.timerFire]).showDropdown = true ∧
     (run exData [Event.keystroke exA, Event.timerFire]).filteredData = [exAB]) ∧
    ((run exData [Event.keystroke exA, Event.timerFire,
        Event.click true none]).showDropdown = false ∧
     (run exData [Event.keystroke exA, Event.timerFire,
        Event.click true none]).filteredData = []) := by
  decide

/-- Claim C4 (counterexample): after typing `a` and then erasing it, the query
is empty and the results are empty, yet the dropdown region is still mounted —
`handleChange` sets dropdown-visible to true even when the new value is
empty — and it renders the no-match message. -/
theorem emptyQuery_dropdown_mounted :
    (run exData [Event.keystroke exA, Event.keystroke []]).inputValue = [] ∧
    (run exData [Event.keystroke exA, Event.keystroke []]).showDropdown = true ∧
    renderedDropdown (run exData [Event.keystroke exA, Event.keystroke []]) =
      some DropdownRender.noMatchMsg := by
  decide

/-- Claim C4 (amended): in every reachable state whose query is the empty
string the filtered results are empty; the dropdown region may nevertheless be
mounted (showing the no-match message), since every keystroke — including the
one that empties the input — sets dropdown-visible to true. -/
theorem emptyQuery_results_empty (data : List Str) (es : List Event)
    (h : (run data es).inputValue = []) : (run data es).filteredData = [] :=
  (inv_run data es).2.2 h

theorem emptyQuery_results_empty_witness :
    (run exData [Event.keystroke exA, Event.keystroke []]).filteredData = [] :=
  emptyQuery_results_empty exData [Event.keystroke exA, Event.keystroke []]
    (by decide)

/-- Claim C5: in every reachable state, once loading is false no debounce
computation is outstanding (so no superseded computation can later fire, set
loading back to true, or apply results); a pending computation, when one
exists, always captured the current — latest — input value, never a
superseded one; and when nothing is pending a timer-fire event leaves the
state untouched. -/
theorem loading_last_write_wins (data : List Str) (es : List Event) :
    ((run data es).loading = false → (run data es).pending = none) ∧
    (∀ v, (run data es).pending = some v → v = (run data es).inputValue) ∧
    ((run data es).pending = none →
      stepE data (run data es) Event.timerFire = run data es) := by
  refine ⟨(inv_run data es).1, (inv_run data es).2.1, ?_⟩
  intro hp
  simp [stepE, hp]

theorem loading_last_write_wins_witness :
    (run exData [Event.keystroke exA, Event.timerFire]).pending = none ∧
    stepE exData (run exData [Event.keystroke exA, Event.timerFire])
        Event.timerFire =
      run exData [Event.keystroke exA, Event.timerFire] :=
  ⟨(loading_last_write_wins exData [Event.keystroke exA, Event.timerFire]).1
      (by decide),
   (loading_last_write_wins exData [Event.keystroke exA, Event.timerFire]).2.2
      (by decide)⟩

/-- Claim C6: when the non-empty query occurs case-insensitively in the
candidate, `highlightMatch` returns the text before the first occurrence, the
exact-cased span of the candidate of the query's length at that occurrence,
and the remaining text after it; the occurrence index is minimal, so only the
first occurrence is highlighted. -/
theorem highlightMatch_found (item q : Str) (i : Nat) (_hq : q ≠ [])
    (h : firstOccur (lower q) (lower item) = some i) :
    highlightMatch q item =
      ⟨item.take i, (item.drop i).take q.length, item.drop (i + q.length)⟩ ∧
    isPfx (lower q) ((lower item).drop i) = true ∧
    (∀ j, isPfx (lower q) ((lower item).drop j) = true → i ≤ j) :=
  ⟨highlightMatch_eq_of_some h, firstOccur_some_isPfx h,
   fun j hj => firstOccur_min h j hj⟩

theorem highlightMatch_found_witness :
    highlightMatch anaL canadaL = ⟨['C'], ['a', 'n', 'a'], ['d', 'a']⟩ :=
  ((highlightMatch_found canadaL anaL 1 (by decide) (by decide)).1).trans
    (by decide)

/-- Claim C7 (counterexample): for the empty query the code takes the found
branch at index 0 (JavaScript `indexOf` of the empty string is 0), so
`highlightMatch` returns the whole candidate as the piece after the empty
span, not before it as the claim states. -/
theorem highlightMatch_empty_query_counterexample :
    highlightMatch [] canadaL = ⟨[], [], canadaL⟩ ∧
    highlightMatch [] canadaL ≠ ⟨canadaL, [], []⟩ := by
  decide

/-- Claim C7 (amended): when a non-empty query does not occur
case-insensitively in the candidate, `highlightMatch` returns the whole
candidate as the piece before the (absent) match, with empty match and empty
tail; when the query is empty it instead returns the whole candidate as the
tail piece — in both cases no non-empty span is emphasized. -/
theorem highlightMatch_no_match (item q : Str) :
    (firstOccur (lower q) (lower item) = none →
      highlightMatch q item = ⟨item, [], []⟩) ∧
    (q = [] → highlightMatch q item = ⟨[], [], item⟩) := by
  constructor
  · intro h
    simp [highlightMatch, h]
  · rintro rfl
    have h0 : firstOccur (lower ([] : Str)) (lower item) = some 0 :=
      firstOccur_nil_need (lower item)
    rw [highlightMatch_eq_of_some h0]
    simp

theorem highlightMatch_no_match_witness :
    highlightMatch xyzL canadaL = ⟨canadaL, [], []⟩ ∧
    highlightMatch [] canadaL = ⟨[], [], canadaL⟩ :=
  ⟨(highlightMatch_no_match canadaL xyzL).1 (by decide),
   (highlightMatch_no_match canadaL []).2 rfl⟩

/-- Claim C8: for every state and every value, the selection handler
`handleClick` (index.tsx lines 30-33) sets the query to the selected value and
hides the dropdown, and leaves the filtered results — as well as the loading
flag and the pending timer — untouched in memory. -/
theorem handleClick_frame (s : CState) (v : Str) :
    (handleClick v s).inputValue = v ∧
    (handleClick v s).showDropdown = false ∧
    (handleClick v s).filteredData = s.filteredData ∧
    (handleClick v s).loading = s.loading ∧
    (handleClick v s).pending = s.pending :=
  ⟨rfl, rfl, rfl, rfl, rfl⟩

/-- Claim C9, evaluated at the failing input: when the candidate list is
absent or not an array (`none`), the debounced filter body for the non-empty
query `a` throws a TypeError from `data.filter` instead of degrading to empty
results. -/
theorem malformed_data_throws :
    debounceFilterBody none exA =
      Except.error "TypeError: data.filter is not a function" := rfl

/-- Claim C10: the three pieces produced by `highlightMatch` always
concatenate back to the original candidate — no character dropped, duplicated
or reordered — and whenever a match is found the emphasized piece has exactly
the query's length. -/
theorem highlightMatch_concat (q item : Str) :
    (highlightMatch q item).pre ++ (highlightMatch q item).mid ++
      (highlightMatch q item).suf = item ∧
    (∀ i, firstOccur (lower q) (lower item) = some i →
      (highlightMatch q item).mid.length = q.length) := by
  cases h : firstOccur (lower q) (lower item) with
  | none =>
      constructor
      · simp [highlightMatch, h]
      · intro i hi
        exact Option.noConfusion hi
  | some i =>
      have hb : i + q.length ≤ item.length := by
        have := firstOccur_add_length_le h
        rwa [lower_length, lower_length] at this
      rw [highlightMatch_eq_of_some h]
      constructor
      · show item.take i ++ (item.drop i).take q.length ++
            item.drop (i + q.length) = item
        have hdd : item.drop (i + q.length) = (item.drop i).drop q.length := by
          rw [List.drop_drop, Nat.add_comm]
        rw [hdd, List.append_assoc, List.take_append_drop, List.take_append_drop]
      · intro j hj
        show ((item.drop i).take q.length).length = q.length
        rw [List.length_take, List.length_drop,
          Nat.min_eq_left (by omega : q.length ≤ item.length - i)]

theorem highlightMatch_concat_witness :
    (highlightMatch anaL canadaL).pre ++ (highlightMatch anaL canadaL).mid ++
      (highlightMatch anaL canadaL).suf = canadaL ∧
    (highlightMatch anaL canadaL).mid.length = anaL.length :=
  ⟨(highlightMatch_concat anaL canadaL).1,
   (highlightMatch_concat anaL canadaL).2 1 (by decide)⟩

end AutoCompleteSpec
